import Mathlib

/-!
Shallow embedding of `src/storage/types.rs` (TiKV storage core data types):
the `Mutation` model, `TxnStatus`, `MvccInfo`, and the `ProcessResult` /
`StorageCallback` dispatch bridge (`execute`, `execute_batch`).

External, opaque types (`keys::Key`, `keys::RawKey`, `keys::Value`,
`mvcc::Lock`, `mvcc::Write`, `mvcc::TimeStamp`, `kvproto`'s `LockInfo`,
the storage `Error` and `Command`) are never inspected by this module;
they are modelled by simple concrete carriers so that everything stays
executable and decidable.

Rust's `Result<T, StorageError>` is modelled as `Except StorageError T`.
Calling a continuation `cb` is modelled by the callback being an arbitrary
function into a result type `ω`: `execute` returns `some (cb arg)` for the
single invocation of the continuation with argument `arg`, and `none`
models a `panic!` (the continuation is never invoked in that case).
-/

/-- Opaque encoded row identifier (external `keys::Key`), a byte string. -/
abbrev Key := List Nat

/-- Opaque raw (unencoded) key (external `keys::RawKey`), a byte string. -/
abbrev RawKey := List Nat

/-- Opaque value (external `keys::Value`), a byte string. -/
abbrev Value := List Nat

/-- External `mvcc::TimeStamp`, a `u64` newtype; no arithmetic is done on it here. -/
abbrev TimeStamp := Nat

/-- External `mvcc::Lock`, opaque to this module. -/
abbrev Lock := Nat

/-- External `mvcc::Write`, opaque to this module. -/
abbrev Write := Nat

/-- External `kvproto::kvrpcpb::LockInfo`, opaque to this module. -/
abbrev LockInfo := Nat

/-- External `storage::Error`, opaque to this module (carried around unchanged). -/
abbrev StorageError := Nat

/-- External `storage::Command`, opaque to this module. -/
abbrev Command := Nat

/-- `MvccInfo` stores all mvcc information of a given key
(`lock`, `(commit_ts, write)` pairs, `(start_ts, value)` pairs). -/
structure MvccInfo where
  lock : Option Lock
  writes : List (TimeStamp × Write)
  values : List (TimeStamp × Value)
  deriving DecidableEq

/-- Rust `#[derive(Default)]` builds `MvccInfo` from the field-wise defaults
(`Option::default()` and `Vec::default()`), modelled by Lean's `default`. -/
instance : Inhabited MvccInfo :=
  ⟨{ lock := default, writes := default, values := default }⟩

/-- A row mutation. Each constructor carries the same tuple payload as the
Rust enum variant. -/
inductive Mutation where
  | Put : Key × Value × Option (List RawKey) → Mutation
  | Delete : Key × Option (List RawKey) → Mutation
  | Lock : Key × Option (List RawKey) → Mutation
  | Insert : Key × Value × Option (List RawKey) → Mutation
  deriving DecidableEq

/-- `Mutation::key(&self)`: the mutation's target key. -/
def Mutation.key : Mutation → Key
  | .Put (k, _, _) => k
  | .Delete (k, _) => k
  | .Lock (k, _) => k
  | .Insert (k, _, _) => k

/-- `Mutation::into_inner(self)`: consumes the mutation into
`(key, value-or-none, secondary_keys)`. -/
def Mutation.into_inner : Mutation → Key × Option Value × Option (List RawKey)
  | .Put (k, v, s) => (k, some v, s)
  | .Delete (k, s) => (k, none, s)
  | .Lock (k, s) => (k, none, s)
  | .Insert (k, v, s) => (k, some v, s)

/-- `Mutation::is_insert(&self)`. -/
def Mutation.is_insert : Mutation → Bool
  | .Insert _ => true
  | _ => false

/-- Represents the status of a transaction (`#[derive(PartialEq)]` in Rust,
structural equality here). -/
inductive TxnStatus where
  | Rollbacked
  | TtlExpire
  | LockNotExist
  | Uncommitted (lock_ttl : Nat) (min_commit_ts : TimeStamp)
  | Committed (commit_ts : TimeStamp)
  deriving DecidableEq

/-- `TxnStatus::uncommitted` constructor. -/
def TxnStatus.uncommitted (lock_ttl : Nat) (min_commit_ts : TimeStamp) : TxnStatus :=
  TxnStatus.Uncommitted lock_ttl min_commit_ts

/-- `TxnStatus::committed` constructor. -/
def TxnStatus.committed (commit_ts : TimeStamp) : TxnStatus :=
  TxnStatus.Committed commit_ts

/-- Process result of a command. `MultiRes` carries `Vec<Result<()>>`. -/
inductive ProcessResult where
  | Res
  | MultiRes (results : List (Except StorageError Unit))
  | MvccKey (mvcc : MvccInfo)
  | MvccStartTs (mvcc : Option (Key × MvccInfo))
  | Locks (locks : List LockInfo)
  | TxnStatus (txn_status : TxnStatus)
  | NextCommand (cmd : Command)
  | Failed (err : StorageError)

/-- `StorageCallback`: each variant holds a continuation. A `Callback<T>`
(`FnOnce(Result<T>)`) is a function `Except StorageError T → ω`; a
`BatchCallback<T>` (`FnMut(Vec<(u64, Result<T>)>)`) is a function
`List (Nat × Except StorageError T) → ω`. The result type `ω` is arbitrary
so that theorems quantify over every possible continuation. -/
inductive StorageCallback (ω : Type) where
  | Boolean (cb : Except StorageError Unit → ω)
  | BatchBoolean (cb : List (Nat × Except StorageError Unit) → ω)
  | Booleans (cb : Except StorageError (List (Except StorageError Unit)) → ω)
  | BatchBooleans (cb : List (Nat × Except StorageError (List (Except StorageError Unit))) → ω)
  | MvccInfoByKey (cb : Except StorageError MvccInfo → ω)
  | MvccInfoByStartTs (cb : Except StorageError (Option (Key × MvccInfo)) → ω)
  | Locks (cb : Except StorageError (List LockInfo) → ω)
  | TxnStatus (cb : Except StorageError TxnStatus → ω)

/-- `StorageCallback::execute(self, pr)`: matched dispatch. `some (cb arg)` is
the single invocation of the continuation with `arg`; `none` models
`panic!("process result mismatch")` / `panic!("callback type mismatch")`. -/
def StorageCallback.execute {ω : Type} : StorageCallback ω → ProcessResult → Option ω
  | .Boolean cb, .Res => some (cb (Except.ok ()))
  | .Boolean cb, .Failed err => some (cb (Except.error err))
  | .Booleans cb, .MultiRes results => some (cb (Except.ok results))
  | .Booleans cb, .Failed err => some (cb (Except.error err))
  | .MvccInfoByKey cb, .MvccKey mvcc => some (cb (Except.ok mvcc))
  | .MvccInfoByKey cb, .Failed err => some (cb (Except.error err))
  | .MvccInfoByStartTs cb, .MvccStartTs mvcc => some (cb (Except.ok mvcc))
  | .MvccInfoByStartTs cb, .Failed err => some (cb (Except.error err))
  | .Locks cb, .Locks locks => some (cb (Except.ok locks))
  | .Locks cb, .Failed err => some (cb (Except.error err))
  | .TxnStatus cb, .TxnStatus txn_status => some (cb (Except.ok txn_status))
  | .TxnStatus cb, .Failed err => some (cb (Except.error err))
  | _, _ => none

/-- The per-element map of `execute_batch` for `BatchBoolean`:
`(id, Res) ↦ (id, Ok(()))`, `(id, Failed err) ↦ (id, Err(err))`,
anything else panics (`none`). -/
def batchBooleanItem : Nat × ProcessResult → Option (Nat × Except StorageError Unit)
  | (i, .Res) => some (i, Except.ok ())
  | (i, .Failed err) => some (i, Except.error err)
  | _ => none

/-- The per-element map of `execute_batch` for `BatchBooleans`:
`(id, MultiRes results) ↦ (id, Ok(results))`, `(id, Failed err) ↦ (id, Err(err))`,
anything else panics (`none`). -/
def batchBooleansItem :
    Nat × ProcessResult → Option (Nat × Except StorageError (List (Except StorageError Unit)))
  | (i, .MultiRes results) => some (i, Except.ok results)
  | (i, .Failed err) => some (i, Except.error err)
  | _ => none

/-- `pr.into_iter().map(f).collect()` where `f` may panic: elements are mapped
left to right, the first panic (`none`) aborts the whole collection. -/
def collectBatch {α β : Type} (f : α → Option β) : List α → Option (List β)
  | [] => some []
  | x :: rest =>
    match f x with
    | none => none
    | some y =>
      match collectBatch f rest with
      | none => none
      | some l => some (y :: l)

/-- `StorageCallback::execute_batch(&mut self, pr)`: only the two batch
variants accept it; the continuation receives the collected association list,
and any per-element mismatch or a non-batch callback panics (`none`). -/
def StorageCallback.execute_batch {ω : Type} :
    StorageCallback ω → List (Nat × ProcessResult) → Option ω
  | .BatchBoolean cb, pr => (collectBatch batchBooleanItem pr).map cb
  | .BatchBooleans cb, pr => (collectBatch batchBooleansItem pr).map cb
  | _, _ => none

/-- The dispatch table of accepted single-shot pairings: which `ProcessResult`
variants each `StorageCallback` variant accepts in `execute`. Batch callbacks
accept nothing through `execute`. -/
def singleMatched {ω : Type} : StorageCallback ω → ProcessResult → Bool
  | .Boolean _, .Res => true
  | .Boolean _, .Failed _ => true
  | .Booleans _, .MultiRes _ => true
  | .Booleans _, .Failed _ => true
  | .MvccInfoByKey _, .MvccKey _ => true
  | .MvccInfoByKey _, .Failed _ => true
  | .MvccInfoByStartTs _, .MvccStartTs _ => true
  | .MvccInfoByStartTs _, .Failed _ => true
  | .Locks _, .Locks _ => true
  | .Locks _, .Failed _ => true
  | .TxnStatus _, .TxnStatus _ => true
  | .TxnStatus _, .Failed _ => true
  | _, _ => false

/-- Whether a callback is one of the two batch variants. -/
def isBatchCallback {ω : Type} : StorageCallback ω → Bool
  | .BatchBoolean _ => true
  | .BatchBooleans _ => true
  | _ => false

/-- `ProcessResult` kinds accepted per element by `execute_batch` on
`BatchBoolean`. -/
def batchBoolAccepted : ProcessResult → Bool
  | .Res => true
  | .Failed _ => true
  | _ => false

/-- `ProcessResult` kinds accepted per element by `execute_batch` on
`BatchBooleans`. -/
def batchBoolsAccepted : ProcessResult → Bool
  | .MultiRes _ => true
  | .Failed _ => true
  | _ => false

/-- Helper: if `collectBatch f xs` succeeds with `l`, then positionally the
`k`-th element of `l` is `f` applied to the `k`-th element of `xs`. -/
theorem collectBatch_get {α β : Type} (f : α → Option β) :
    ∀ (xs : List α) (l : List β), collectBatch f xs = some l →
      ∀ (k : Nat) (x : α), xs.get? k = some x →
        ∃ y, f x = some y ∧ l.get? k = some y := by
  intro xs
  induction xs with
  | nil => intro l hl k x hx; simp at hx
  | cons a rest ih =>
    intro l hl k x hx
    rw [collectBatch] at hl
    cases hfa : f a with
    | none => rw [hfa] at hl; simp at hl
    | some y =>
      rw [hfa] at hl
      cases hrest : collectBatch f rest with
      | none => rw [hrest] at hl; simp at hl
      | some l0 =>
        rw [hrest] at hl
        simp only [Option.some.injEq] at hl
        subst hl
        cases k with
        | zero =>
          simp only [List.get?_cons_zero, Option.some.injEq] at hx
          subst hx
          exact ⟨y, hfa, by simp⟩
        | succ k2 =>
          simp only [List.get?_cons_succ] at hx
          obtain ⟨y2, hy2, hl2⟩ := ih l0 hrest k2 x hx
          exact ⟨y2, hy2, by simpa using hl2⟩

/-- Helper: if every element of the batch input is accepted by the per-element
map `f`, collection succeeds and the command ids come out unchanged, in
order (assuming `f` preserves the id, as both item maps do). -/
theorem collectBatch_ids {γ : Type} (f : Nat × ProcessResult → Option (Nat × γ))
    (hf : ∀ p y, f p = some y → y.1 = p.1) :
    ∀ prs : List (Nat × ProcessResult), (∀ p ∈ prs, (f p).isSome = true) →
      ∃ l, collectBatch f prs = some l ∧ List.map Prod.fst l = List.map Prod.fst prs := by
  intro prs
  induction prs with
  | nil => intro _; exact ⟨[], rfl, rfl⟩
  | cons a rest ih =>
    intro h
    have ha : (f a).isSome = true := h a (by simp)
    cases hfa : f a with
    | none => rw [hfa] at ha; simp at ha
    | some y =>
      obtain ⟨l, hl, hmap⟩ := ih (fun p hp => h p (by simp [hp]))
      refine ⟨y :: l, ?_, ?_⟩
      · rw [collectBatch, hfa, hl]
      · simp [hmap, hf a y hfa]

/-- C1: for every `StorageCallback` variant paired with its matching
`ProcessResult` success variant, `execute` invokes the registered
continuation exactly once (the result is exactly one application of the
continuation) with `Ok` of the exact success payload, unmodified. -/
theorem execute_matched_ok {ω : Type}
    (cb1 : Except StorageError Unit → ω)
    (cb2 : Except StorageError (List (Except StorageError Unit)) → ω)
    (cb3 : Except StorageError MvccInfo → ω)
    (cb4 : Except StorageError (Option (Key × MvccInfo)) → ω)
    (cb5 : Except StorageError (List LockInfo) → ω)
    (cb6 : Except StorageError TxnStatus → ω)
    (results : List (Except StorageError Unit)) (mvcc : MvccInfo)
    (mvccOpt : Option (Key × MvccInfo)) (locks : List LockInfo)
    (txn_status : TxnStatus) :
    (StorageCallback.Boolean cb1).execute ProcessResult.Res
        = some (cb1 (Except.ok ())) ∧
    (StorageCallback.Booleans cb2).execute (ProcessResult.MultiRes results)
        = some (cb2 (Except.ok results)) ∧
    (StorageCallback.MvccInfoByKey cb3).execute (ProcessResult.MvccKey mvcc)
        = some (cb3 (Except.ok mvcc)) ∧
    (StorageCallback.MvccInfoByStartTs cb4).execute (ProcessResult.MvccStartTs mvccOpt)
        = some (cb4 (Except.ok mvccOpt)) ∧
    (StorageCallback.Locks cb5).execute (ProcessResult.Locks locks)
        = some (cb5 (Except.ok locks)) ∧
    (StorageCallback.TxnStatus cb6).execute (ProcessResult.TxnStatus txn_status)
        = some (cb6 (Except.ok txn_status)) :=
  ⟨rfl, rfl, rfl, rfl, rfl, rfl⟩

/-- C2: every mismatched pairing aborts (`none`, modelling `panic!`) and never
invokes the continuation: any `ProcessResult` outside the callback's accepted
set (including `NextCommand`, accepted by none, and any batch callback passed
to `execute`), and any non-batch callback passed to `execute_batch`. -/
theorem execute_mismatch_aborts {ω : Type} (scb : StorageCallback ω)
    (pr : ProcessResult) (prs : List (Nat × ProcessResult)) :
    (singleMatched scb pr = false → scb.execute pr = none) ∧
    (isBatchCallback scb = false → scb.execute_batch prs = none) := by
  cases scb <;> cases pr <;>
    simp [singleMatched, isBatchCallback, StorageCallback.execute,
      StorageCallback.execute_batch]

/-- C2 witness: a `Boolean` callback receiving `NextCommand` panics, and a
`Boolean` callback passed to `execute_batch` panics. -/
theorem execute_mismatch_aborts_witness :
    (StorageCallback.Boolean (fun r => r)).execute (ProcessResult.NextCommand 0) = none ∧
    (StorageCallback.Boolean (fun r => r)).execute_batch [(1, ProcessResult.Res)] = none := by
  have h := execute_mismatch_aborts (StorageCallback.Boolean (fun r => r))
    (ProcessResult.NextCommand 0) [(1, ProcessResult.Res)]
  exact ⟨h.1 rfl, h.2 rfl⟩

/-- C3: `ProcessResult::Failed{err}` is propagated as `Err(err)` unchanged:
every non-batch callback's `execute` invokes the continuation once with
exactly `Err(err)`, and in `execute_batch` every `(id, Failed err)` input
pair is mapped positionally to `(id, Err(err))` for both batch variants;
no retry, translation or suppression takes place. -/
theorem execute_failed_err {ω : Type}
    (cb1 : Except StorageError Unit → ω)
    (cb2 : Except StorageError (List (Except StorageError Unit)) → ω)
    (cb3 : Except StorageError MvccInfo → ω)
    (cb4 : Except StorageError (Option (Key × MvccInfo)) → ω)
    (cb5 : Except StorageError (List LockInfo) → ω)
    (cb6 : Except StorageError TxnStatus → ω)
    (err : StorageError) :
    (StorageCallback.Boolean cb1).execute (ProcessResult.Failed err)
        = some (cb1 (Except.error err)) ∧
    (StorageCallback.Booleans cb2).execute (ProcessResult.Failed err)
        = some (cb2 (Except.error err)) ∧
    (StorageCallback.MvccInfoByKey cb3).execute (ProcessResult.Failed err)
        = some (cb3 (Except.error err)) ∧
    (StorageCallback.MvccInfoByStartTs cb4).execute (ProcessResult.Failed err)
        = some (cb4 (Except.error err)) ∧
    (StorageCallback.Locks cb5).execute (ProcessResult.Failed err)
        = some (cb5 (Except.error err)) ∧
    (StorageCallback.TxnStatus cb6).execute (ProcessResult.Failed err)
        = some (cb6 (Except.error err)) ∧
    (∀ (prs : List (Nat × ProcessResult)) (l : List (Nat × Except StorageError Unit))
        (k i : Nat) (e : StorageError),
        collectBatch batchBooleanItem prs = some l →
        prs.get? k = some (i, ProcessResult.Failed e) →
        l.get? k = some (i, Except.error e)) ∧
    (∀ (prs : List (Nat × ProcessResult))
        (l : List (Nat × Except StorageError (List (Except StorageError Unit))))
        (k i : Nat) (e : StorageError),
        collectBatch batchBooleansItem prs = some l →
        prs.get? k = some (i, ProcessResult.Failed e) →
        l.get? k = some (i, Except.error e)) := by
  refine ⟨rfl, rfl, rfl, rfl, rfl, rfl, ?_, ?_⟩
  · intro prs l k i e hc hk
    obtain ⟨y, hy, hl⟩ :=
      collectBatch_get batchBooleanItem prs l hc k (i, ProcessResult.Failed e) hk
    simp only [batchBooleanItem, Option.some.injEq] at hy
    rw [← hy] at hl
    exact hl
  · intro prs l k i e hc hk
    obtain ⟨y, hy, hl⟩ :=
      collectBatch_get batchBooleansItem prs l hc k (i, ProcessResult.Failed e) hk
    simp only [batchBooleansItem, Option.some.injEq] at hy
    rw [← hy] at hl
    exact hl

/-- C3 witness: a `Boolean` callback receives `Err(3)` for `Failed 3`, and in
a batch the pair `(7, Failed 3)` comes out as `(7, Err(3))`. -/
theorem execute_failed_err_witness :
    (StorageCallback.Boolean (fun r => r)).execute (ProcessResult.Failed 3)
        = some (Except.error 3) ∧
    ([((7 : Nat), Except.error (3 : StorageError))]
        : List (Nat × Except StorageError Unit)).get? 0 = some (7, Except.error 3) := by
  have h := execute_failed_err (ω := Except StorageError Unit) (fun r => r)
    (fun _ => Except.ok ()) (fun _ => Except.ok ()) (fun _ => Except.ok ())
    (fun _ => Except.ok ()) (fun _ => Except.ok ()) 3
  refine ⟨h.1, ?_⟩
  exact h.2.2.2.2.2.2.1 [(7, ProcessResult.Failed 3)] [(7, Except.error 3)] 0 7 3 rfl rfl

/-- C4: `execute_batch` on `BatchBoolean` with input `[(1, Res), (2, Failed e)]`
invokes the batch continuation with exactly the association list
`[(1, Ok(())), (2, Err(e))]`: both ids present, no other entries. -/
theorem execute_batch_two_example {ω : Type}
    (cb : List (Nat × Except StorageError Unit) → ω) (e : StorageError) :
    (StorageCallback.BatchBoolean cb).execute_batch
        [(1, ProcessResult.Res), (2, ProcessResult.Failed e)]
      = some (cb [(1, Except.ok ()), (2, Except.error e)]) := rfl

/-- C5: `key` is a pure projection (so repeated calls return the same key and
nothing is consumed), and `into_inner` yields `(key, Some v, secondaries)`
for `Put`/`Insert` and `(key, None, secondaries)` for `Delete`/`Lock`, the
first component always being what `key` returns. -/
theorem mutation_key_into_inner (k : Key) (v : Value) (s : Option (List RawKey))
    (m : Mutation) :
    Mutation.key (Mutation.Put (k, v, s)) = k ∧
    Mutation.key (Mutation.Delete (k, s)) = k ∧
    Mutation.key (Mutation.Lock (k, s)) = k ∧
    Mutation.key (Mutation.Insert (k, v, s)) = k ∧
    Mutation.into_inner (Mutation.Put (k, v, s)) = (k, some v, s) ∧
    Mutation.into_inner (Mutation.Delete (k, s)) = (k, none, s) ∧
    Mutation.into_inner (Mutation.Lock (k, s)) = (k, none, s) ∧
    Mutation.into_inner (Mutation.Insert (k, v, s)) = (k, some v, s) ∧
    (Mutation.into_inner m).1 = Mutation.key m := by
  refine ⟨rfl, rfl, rfl, rfl, rfl, rfl, rfl, rfl, ?_⟩
  cases m with
  | Put p => obtain ⟨a, b, c⟩ := p; rfl
  | Delete p => obtain ⟨a, c⟩ := p; rfl
  | Lock p => obtain ⟨a, c⟩ := p; rfl
  | Insert p => obtain ⟨a, b, c⟩ := p; rfl

/-- C6: on a batch callback, for any input whose results are all of the
accepted kinds, `execute_batch` invokes the continuation exactly once with an
association list holding exactly one entry per input pair, carrying the same
command ids in the same order as the input — the empty input and duplicated
ids included (nothing is detected or deduplicated). -/
theorem execute_batch_preserves_ids {ω : Type}
    (cb : List (Nat × Except StorageError Unit) → ω)
    (cbs : List (Nat × Except StorageError (List (Except StorageError Unit))) → ω)
    (prs1 prs2 : List (Nat × ProcessResult))
    (h1 : ∀ p ∈ prs1, batchBoolAccepted p.2 = true)
    (h2 : ∀ p ∈ prs2, batchBoolsAccepted p.2 = true) :
    (∃ l, collectBatch batchBooleanItem prs1 = some l ∧
        (StorageCallback.BatchBoolean cb).execute_batch prs1 = some (cb l) ∧
        List.map Prod.fst l = List.map Prod.fst prs1) ∧
    (∃ l, collectBatch batchBooleansItem prs2 = some l ∧
        (StorageCallback.BatchBooleans cbs).execute_batch prs2 = some (cbs l) ∧
        List.map Prod.fst l = List.map Prod.fst prs2) := by
  have hfb : ∀ (p : Nat × ProcessResult) (y : Nat × Except StorageError Unit),
      batchBooleanItem p = some y → y.1 = p.1 := by
    rintro ⟨i, pr⟩ y hy
    cases pr <;> simp [batchBooleanItem] at hy <;> simp [← hy]
  have hfbs : ∀ (p : Nat × ProcessResult)
      (y : Nat × Except StorageError (List (Except StorageError Unit))),
      batchBooleansItem p = some y → y.1 = p.1 := by
    rintro ⟨i, pr⟩ y hy
    cases pr <;> simp [batchBooleansItem] at hy <;> simp [← hy]
  have hacc1 : ∀ p ∈ prs1, (batchBooleanItem p).isSome = true := by
    intro p hp
    have ht := h1 p hp
    rcases p with ⟨i, pr⟩
    cases pr <;> simp only [batchBoolAccepted] at ht <;> first | rfl | exact Bool.noConfusion ht
  have hacc2 : ∀ p ∈ prs2, (batchBooleansItem p).isSome = true := by
    intro p hp
    have ht := h2 p hp
    rcases p with ⟨i, pr⟩
    cases pr <;> simp only [batchBoolsAccepted] at ht <;> first | rfl | exact Bool.noConfusion ht
  obtain ⟨l1, hc1, hm1⟩ := collectBatch_ids batchBooleanItem hfb prs1 hacc1
  obtain ⟨l2, hc2, hm2⟩ := collectBatch_ids batchBooleansItem hfbs prs2 hacc2
  refine ⟨⟨l1, hc1, ?_, hm1⟩, ⟨l2, hc2, ?_, hm2⟩⟩
  · simp [StorageCallback.execute_batch, hc1]
  · simp [StorageCallback.execute_batch, hc2]

/-- C6 witness: a duplicated id `3` passes through undetected for
`BatchBoolean`, and the empty input yields one invocation with the empty
association list for `BatchBooleans`. -/
theorem execute_batch_preserves_ids_witness :
    (∃ l, collectBatch batchBooleanItem
            [(3, ProcessResult.Res), (3, ProcessResult.Failed 1)] = some l ∧
        (StorageCallback.BatchBoolean (fun x => List.length x)).execute_batch
            [(3, ProcessResult.Res), (3, ProcessResult.Failed 1)] = some (List.length l) ∧
        List.map Prod.fst l
          = List.map Prod.fst [((3 : Nat), ProcessResult.Res), (3, ProcessResult.Failed 1)]) ∧
    (∃ l, collectBatch batchBooleansItem [] = some l ∧
        (StorageCallback.BatchBooleans (fun x => List.length x)).execute_batch []
          = some (List.length l) ∧
        List.map Prod.fst l = List.map Prod.fst ([] : List (Nat × ProcessResult))) :=
  execute_batch_preserves_ids (fun x => List.length x) (fun x => List.length x)
    [(3, ProcessResult.Res), (3, ProcessResult.Failed 1)] []
    (by decide) (by decide)

/-- C7: `TxnStatus::uncommitted 10 ts` builds exactly
`Uncommitted {lock_ttl := 10, min_commit_ts := ts}`, distinct from every
other variant and from any `Uncommitted` whose fields differ;
`TxnStatus::committed cts` builds exactly `Committed {commit_ts := cts}`;
and equality is total over the five variants. -/
theorem txn_status_eq_spec (ts cts mcts : TimeStamp) (ttl : Nat) (a b : TxnStatus) :
    TxnStatus.uncommitted 10 ts = TxnStatus.Uncommitted 10 ts ∧
    TxnStatus.committed cts = TxnStatus.Committed cts ∧
    TxnStatus.uncommitted 10 ts ≠ TxnStatus.Rollbacked ∧
    TxnStatus.uncommitted 10 ts ≠ TxnStatus.TtlExpire ∧
    TxnStatus.uncommitted 10 ts ≠ TxnStatus.LockNotExist ∧
    TxnStatus.uncommitted 10 ts ≠ TxnStatus.Committed cts ∧
    (TxnStatus.uncommitted 10 ts = TxnStatus.Uncommitted ttl mcts ↔ ttl = 10 ∧ mcts = ts) ∧
    (a = b ∨ a ≠ b) := by
  refine ⟨rfl, rfl, ?_, ?_, ?_, ?_, ?_, eq_or_ne a b⟩
  · intro h; exact TxnStatus.noConfusion h
  · intro h; exact TxnStatus.noConfusion h
  · intro h; exact TxnStatus.noConfusion h
  · intro h; exact TxnStatus.noConfusion h
  · constructor
    · intro h
      injection h with h1 h2
      exact ⟨h1.symm, h2.symm⟩
    · rintro ⟨rfl, rfl⟩; rfl

/-- C7 witness: the constructor equalities and distinctness at concrete
timestamps (`ts = 5`, `cts = 7`, a differing `Uncommitted 4 3`), plus totality
of equality at `Rollbacked` / `TtlExpire`. -/
theorem txn_status_eq_spec_witness :
    TxnStatus.uncommitted 10 5 = TxnStatus.Uncommitted 10 5 ∧
    TxnStatus.committed 7 = TxnStatus.Committed 7 ∧
    TxnStatus.uncommitted 10 5 ≠ TxnStatus.Rollbacked ∧
    TxnStatus.uncommitted 10 5 ≠ TxnStatus.TtlExpire ∧
    TxnStatus.uncommitted 10 5 ≠ TxnStatus.LockNotExist ∧
    TxnStatus.uncommitted 10 5 ≠ TxnStatus.Committed 7 ∧
    (TxnStatus.uncommitted 10 5 = TxnStatus.Uncommitted 4 3 ↔ (4 : Nat) = 10 ∧ (3 : TimeStamp) = 5) ∧
    (TxnStatus.Rollbacked = TxnStatus.TtlExpire ∨ TxnStatus.Rollbacked ≠ TxnStatus.TtlExpire) :=
  txn_status_eq_spec 5 7 3 4 TxnStatus.Rollbacked TxnStatus.TtlExpire

/-- C8: `is_insert` is `true` exactly on `Insert` and `false` on `Put`,
`Delete` and `Lock`. -/
theorem is_insert_iff (k : Key) (v : Value) (s : Option (List RawKey)) (m : Mutation) :
    Mutation.is_insert (Mutation.Put (k, v, s)) = false ∧
    Mutation.is_insert (Mutation.Delete (k, s)) = false ∧
    Mutation.is_insert (Mutation.Lock (k, s)) = false ∧
    Mutation.is_insert (Mutation.Insert (k, v, s)) = true ∧
    (Mutation.is_insert m = true ↔ ∃ p, m = Mutation.Insert p) := by
  refine ⟨rfl, rfl, rfl, rfl, ?_⟩
  cases m <;> simp [Mutation.is_insert]

/-- C8 witness: `is_insert` evaluated on all four variants at a concrete key,
value and secondary list. -/
theorem is_insert_iff_witness :
    Mutation.is_insert (Mutation.Put ([0], [1], none)) = false ∧
    Mutation.is_insert (Mutation.Delete ([0], none)) = false ∧
    Mutation.is_insert (Mutation.Lock ([0], none)) = false ∧
    Mutation.is_insert (Mutation.Insert ([0], [1], none)) = true ∧
    (Mutation.is_insert (Mutation.Insert ([0], [1], none)) = true ↔
      ∃ p, Mutation.Insert ([0], [1], none) = Mutation.Insert p) :=
  is_insert_iff [0] [1] none (Mutation.Insert ([0], [1], none))

/-- C9: an `MvccInfo` built from `lock = None`, `writes = []`, `values = []`
equals the default-constructed value. -/
theorem mvcc_info_default_eq :
    ({ lock := none, writes := [], values := [] } : MvccInfo) = (default : MvccInfo) :=
  rfl

/-- C10: no operation of `Mutation` checks the secondary-keys invariant:
construction always succeeds (the constructors are total) and `into_inner`
returns whatever secondary list was supplied, unchanged, as the third
component — even a list containing the mutation's own key and duplicates. -/
theorem mutation_secondary_keys_unchecked (k : Key) (v : Value)
    (s : Option (List RawKey)) (sks : List RawKey) :
    (Mutation.into_inner (Mutation.Put (k, v, s))).2.2 = s ∧
    (Mutation.into_inner (Mutation.Delete (k, s))).2.2 = s ∧
    (Mutation.into_inner (Mutation.Lock (k, s))).2.2 = s ∧
    (Mutation.into_inner (Mutation.Insert (k, v, s))).2.2 = s ∧
    Mutation.into_inner (Mutation.Put (k, v, some (k :: sks ++ sks)))
      = (k, some v, some (k :: sks ++ sks)) ∧
    Mutation.key (Mutation.Put (k, v, some (k :: sks ++ sks))) = k :=
  ⟨rfl, rfl, rfl, rfl, rfl, rfl⟩
